import Mathlib

/-!
Verification of the timeline consolidation pipeline (`src/tl.py`,
class `UkMapReduceTimelineTask`).

Strings are modelled as `List Char` (`Str`). Python code is translated
function by function:

* `remapCitations`  — the citation remap `re.sub(r"\[\^(\d+)\]", f"[({index},\\1)]", ...)`
  of `get_consolidated_chronology` (tl.py lines 259-268);
* `mergeTimelineRule` — `merge_timeline_rule` (tl.py lines 328-347);
* `matchTotal` / `simGE75` — CPython `difflib.SequenceMatcher(None, a, b).ratio() >= 0.75`
  (exact rational comparison `2*M/T >= 3/4`, i.e. `3*T <= 8*M`);
* `dedupEvents`     — the duplicate filter of `get_consolidated_chronology`
  (tl.py lines 277-291);
* `resolveSources`  — the citation-token to `source` step (tl.py lines 293-296);
* `postprocessChronologyEvents` — `_postprocess_chronology` (tl.py lines 301-326,
  feature toggles off, i.e. the plain `else` branch);
* `generateAnswer`  — the `generate_answer` control flow (tl.py lines 98-106);
* `jsonToChronology` — `json_to_chronology` (tl.py lines 176-185);
* `llmPredictBatch` / `llmBatchWorkerPool` — `llm_predict_batch` (tl.py lines 394-410);
* `mapAnswersGroup` — the answer grouping loop of `map_answers` (tl.py lines 369-383).

External collaborators that are not part of this repository
(`consolidated_chronology_to_json_docviewer`, `sort_json_chronology`) are
taken as oracle parameters; `postprocess_chronology` (text cleanup) is
modelled from the spec, see its doc comment.

Scanning functions that advance by a matched token use an explicit fuel
argument; one unit of fuel is consumed per character position, so fuel
equal to the length of the input is always sufficient (each step consumes
at least one character).  This keeps every definition computable by the
kernel.
-/

set_option maxRecDepth 100000

abbrev Str := List Char

/-- Coerce a Lean string literal to the `List Char` representation. -/
def s2l (s : String) : Str := s.toList

/-! ### Citation remapper: `re.sub(r"\[\^(\d+)\]", f"[({index},\\1)]", doc_answer)` -/

/-- Greedily parse a leading run of decimal digits (the `\d+` part),
returning the digits and the remainder. -/
def parseDigits : Str → Str × Str
  | [] => ([], [])
  | c :: cs =>
    if c.isDigit then
      let p := parseDigits cs
      (c :: p.1, p.2)
    else ([], c :: cs)

/-- Try to match `^(\d+)]` at the head of the input (the part of a local
citation token after the opening `[`).  Returns the digit group and the
remainder after the closing `]`. -/
def tryTok (s : Str) : Option (Str × Str) :=
  match s with
  | [] => none
  | c :: cs =>
    if c = '^' then
      match parseDigits cs with
      | ([], _) => none
      | (d :: ds, r) =>
        match r with
        | ']' :: r' => some (d :: ds, r')
        | _ => none
    else none

/-- Decimal digits of a natural number, as characters (Python `f"{index}"`). -/
def natDigitsAux : Nat → Nat → Str
  | 0, _ => []
  | f + 1, n =>
    if n < 10 then [Nat.digitChar n]
    else natDigitsAux f (n / 10) ++ [Nat.digitChar (n % 10)]

def natDigits (n : Nat) : Str := natDigitsAux (n + 1) n

/-- The replacement `f"[({index},\\1)]"`: the global citation token. -/
def gTok (d : Nat) (ds : Str) : Str :=
  '[' :: '(' :: natDigits d ++ ',' :: ds ++ [')', ']']

/-- Left-to-right, non-overlapping scan of `re.sub(r"\[\^(\d+)\]", ...)`:
at each position either a whole token is matched and replaced, or one
character is copied.  `fuel` bounds the number of positions visited. -/
def remapF (d : Nat) : Nat → Str → Str
  | 0, s => s
  | _ + 1, [] => []
  | f + 1, c :: rest =>
    if c = '[' then
      match tryTok rest with
      | some (ds, rest') => gTok d ds ++ remapF d f rest'
      | none => '[' :: remapF d f rest
    else c :: remapF d f rest

/-- `re.sub(r"\[\^(\d+)\]", f"[({d},\\1)]", s)` (tl.py lines 262-265). -/
def remapCitations (d : Nat) (s : Str) : Str := remapF d s.length s

/-- `true` iff the string contains a complete local citation token
`[^k]` (a match of `\[\^(\d+)\]`) at some position. -/
def hasTok : Str → Bool
  | [] => false
  | c :: rest => (c = '[' && (tryTok rest).isSome) || hasTok rest

/-! ### String utilities shared by several stages -/

/-- Python substring containment: `needle in hay`. -/
def hasSub (needle : Str) : Str → Bool
  | [] => needle.isEmpty
  | c :: rest => needle.isPrefixOf (c :: rest) || hasSub needle rest

/-- Split at the first occurrence of `sep`: `some (before, after)` when
`sep` occurs, `none` otherwise (leftmost occurrence, as Python `str.split`). -/
def splitFirst (sep : Str) : Str → Option (Str × Str)
  | [] => none
  | c :: rest =>
    if sep.isPrefixOf (c :: rest) then some ([], (c :: rest).drop sep.length)
    else
      match splitFirst sep rest with
      | some (pre, post) => some (c :: pre, post)
      | none => none

/-- Python `s.split(sep)[0]`: the text before the first occurrence of
`sep`, or all of `s` when `sep` does not occur. -/
def pyIdx0 (sep s : Str) : Str :=
  match splitFirst sep s with
  | some (pre, _) => pre
  | none => s

/-- Python `s.split(sep)[1]`: the segment between the first and second
occurrences of `sep` (everything after the first occurrence when there is
no second one); `none` models the `IndexError` raised when `sep` does not
occur at all. -/
def pyIdx1 (sep s : Str) : Option Str :=
  match splitFirst sep s with
  | none => none
  | some (_, post) => some (pyIdx0 sep post)

/-- Python default whitespace for `str.strip()`. -/
def isPySpace (c : Char) : Bool :=
  c = ' ' || c = '\t' || c = '\n' || c = '\r' || c = '\x0b' || c = '\x0c'

/-- Python `s.strip()`. -/
def trimStr (s : Str) : Str :=
  ((s.dropWhile isPySpace).reverse.dropWhile isPySpace).reverse

/-- Python `"\n".join(parts)`. -/
def joinNl (parts : List Str) : Str := List.intercalate ['\n'] parts

/-! ### Per-document merger: `merge_timeline_rule` (tl.py lines 328-347) -/

/-- `NO_RELEVANT_MESSAGE` (tl.py line 55). -/
def sentinel : Str := s2l "No relevant information found"

/-- `f"{self.NO_RELEVANT_MESSAGE}."` — the value stored for a document
with no surviving content (tl.py lines 342 and 345). -/
def sentinelDot : Str := s2l "No relevant information found."

/-- `one_doc_chunk.split("<timeline>")[1].split("</timeline>")[0].strip()`
(tl.py line 336); `none` models the `IndexError` when the fragment has no
`<timeline>` tag. -/
def extractTimeline (c : Str) : Option Str :=
  (pyIdx1 (s2l "<timeline>") c).map fun seg => trimStr (pyIdx0 (s2l "</timeline>") seg)

/-- Modelled from the spec: `postprocess_chronology` is imported from
`uk_plan.chains.ask_doc.utils`, which is not part of this repository.
Spec 4.2(d): "collapse runs of 3+ blank lines to exactly one" — a maximal
run of three or more newline characters becomes a single blank line
(two newlines); shorter runs are kept as they are. -/
def collapseBlankAux : Nat → Str → Str
  | pending, [] => List.replicate (if 3 ≤ pending then 2 else pending) '\n'
  | pending, c :: rest =>
    if c = '\n' then collapseBlankAux (pending + 1) rest
    else
      List.replicate (if 3 ≤ pending then 2 else pending) '\n' ++ c :: collapseBlankAux 0 rest

/-- Modelled from the spec: see `collapseBlankAux`. -/
def postprocessChronologyText (s : Str) : Str := collapseBlankAux 0 s

/-- Evaluate `f` on each element in order, failing as soon as one
evaluation fails (a Python list comprehension whose body may raise). -/
def mapOpt {α β : Type} (f : α → Option β) : List α → Option (List β)
  | [] => some []
  | a :: as =>
    match f a with
    | none => none
    | some b =>
      match mapOpt f as with
      | none => none
      | some bs => some (b :: bs)

/-- Body of the per-document loop of `merge_timeline_rule` (tl.py lines
330-345): filter out fragments containing the sentinel, extract each
survivor's `<timeline>` section (any fragment without the tag raises,
caught by the `except`, making the whole document the sentinel), join
with newlines, post-process, and fall back to the sentinel when empty. -/
def mergeOneDoc (chunks : List Str) : Str :=
  let survivors := chunks.filter fun c => ! hasSub sentinel c
  match mapOpt extractTimeline survivors with
  | none => sentinelDot
  | some parts =>
    let content := postprocessChronologyText (joinNl parts)
    if content.isEmpty then sentinelDot else content

/-- `merge_timeline_rule` (tl.py lines 328-347). -/
def mergeTimelineRule (mapAnswers : List (List Str)) : List Str :=
  mapAnswers.map mergeOneDoc

/-! ### `difflib.SequenceMatcher(None, a, b).ratio()` (CPython stdlib)

`get_consolidated_chronology` (tl.py lines 282-285) compares events with
`SequenceMatcher(None, ev["event"].lower(), kept["event"].lower()).ratio() >= 0.75`.
The model below reproduces CPython's algorithm: `b2j` with autojunk
(elements of `b` occurring more than `len(b)//100 + 1` times are dropped
when `len(b) >= 200`), the `j2len` dynamic program of
`find_longest_match` with its first-found tie-breaking, the two
"non-junk" extension loops (`bjunk` is empty since `isjunk is None`;
the junk extension loops never fire), and the recursive block
decomposition of `get_matching_blocks`, whose sizes are summed by
`ratio`.  The float comparison `ratio() >= 0.75` is modelled as the
exact rational comparison `3*(len(a)+len(b)) <= 8*matches`. -/

/-- Autojunk: `true` for characters of `b` purged from `b2j`. -/
def popularB (b : Str) (c : Char) : Bool :=
  decide (200 ≤ b.length) && decide (b.length / 100 + 1 < b.count c)

/-- Inner loop of `find_longest_match`: walk the matching `j` positions
of one row `i` (ascending), building the new `j2len` row and updating the
best block `(besti, bestj, bestsize)` on strictly larger sizes. -/
def rowJs (i : Nat) (j2 : Nat → Nat) : List Nat → (Nat → Nat) → Nat × Nat × Nat →
    (Nat → Nat) × (Nat × Nat × Nat)
  | [], acc, best => (acc, best)
  | j :: js, acc, best =>
    let k := (if j = 0 then 0 else j2 (j - 1)) + 1
    let acc' := fun x => if x = j then k else acc x
    let best' := if best.2.2 < k then (i + 1 - k, j + 1 - k, k) else best
    rowJs i j2 js acc' best'

/-- Outer loop of `find_longest_match` over the rows `i` of `a`. -/
def dpRows (a b : Str) (pop : Char → Bool) (blo bhi : Nat) :
    List Nat → (Nat → Nat) → Nat × Nat × Nat → Nat × Nat × Nat
  | [], _, best => best
  | i :: is, j2, best =>
    let ai := a.getD i ' '
    let js := (List.range' blo (bhi - blo)).filter fun j =>
      decide (b.getD j ' ' = ai) && ! pop (b.getD j ' ')
    let step := rowJs i j2 js (fun _ => 0) best
    dpRows a b pop blo bhi is step.1 step.2

/-- First extension loop: extend the best block backwards over equal
characters (`bjunk` is empty, so the junk test is vacuous).  Fuel `i`
bounds the iterations since `i` decreases to at most `alo`. -/
def extendBack (a b : Str) (alo blo : Nat) : Nat → Nat × Nat × Nat → Nat × Nat × Nat
  | 0, st => st
  | f + 1, (i, j, k) =>
    if alo < i ∧ blo < j ∧ a.getD (i - 1) ' ' = b.getD (j - 1) ' ' then
      extendBack a b alo blo f (i - 1, j - 1, k + 1)
    else (i, j, k)

/-- Second extension loop: extend forwards over equal characters.
Fuel `ahi` bounds the iterations since `i + k` grows up to `ahi`. -/
def extendFwd (a b : Str) (ahi bhi : Nat) : Nat → Nat × Nat × Nat → Nat × Nat × Nat
  | 0, st => st
  | f + 1, (i, j, k) =>
    if i + k < ahi ∧ j + k < bhi ∧ a.getD (i + k) ' ' = b.getD (j + k) ' ' then
      extendFwd a b ahi bhi f (i, j, k + 1)
    else (i, j, k)

/-- `find_longest_match(alo, ahi, blo, bhi)`. -/
def flm (a b : Str) (pop : Char → Bool) (alo ahi blo bhi : Nat) : Nat × Nat × Nat :=
  let best := dpRows a b pop blo bhi (List.range' alo (ahi - alo)) (fun _ => 0) (alo, blo, 0)
  let best := extendBack a b alo blo best.1 best
  extendFwd a b ahi bhi ahi best

/-- Total size of the matching blocks of `get_matching_blocks`, by the
recursive decomposition around each longest match.  Every recursive call
strictly decreases `(ahi - alo) + (bhi - blo)`, so fuel
`len(a) + len(b) + 1` is always sufficient. -/
def mtF (a b : Str) (pop : Char → Bool) : Nat → Nat × Nat × Nat × Nat → Nat
  | 0, _ => 0
  | f + 1, (alo, ahi, blo, bhi) =>
    let m := flm a b pop alo ahi blo bhi
    if m.2.2 = 0 then 0
    else
      m.2.2 + mtF a b pop f (alo, m.1, blo, m.2.1) +
        mtF a b pop f (m.1 + m.2.2, ahi, m.2.1 + m.2.2, bhi)

/-- `sum(size for (_, _, size) in SequenceMatcher(None, a, b).get_matching_blocks())`. -/
def matchTotal (a b : Str) : Nat :=
  mtF a b (popularB b) (a.length + b.length + 1) (0, a.length, 0, b.length)

/-- `SequenceMatcher(None, a, b).ratio() >= 0.75`, as the exact rational
comparison `2*M/(len(a)+len(b)) >= 3/4` (with ratio 1.0 for two empty
strings, as in CPython). -/
def simGE75 (a b : Str) : Bool :=
  decide (3 * (a.length + b.length) ≤ 8 * matchTotal a b)

/-- Python `s.lower()` (ASCII case folding suffices for the claims). -/
def lowerStr (s : Str) : Str := s.map Char.toLower

/-! ### Chronology events and deduplication (tl.py lines 277-296) -/

/-- An event dictionary.  The structured-extraction contract (spec 4.4)
guarantees `time` and `event`; `title` and `source` are optional keys
(`None` models an absent key, as exercised by `event.get(...)` vs
`event[...]` accesses in tl.py). -/
structure PyEvent where
  time : Str
  event : Str
  title : Option Str
  source : Option Str
deriving DecidableEq

/-- The duplicate test of tl.py lines 280-287: some already-kept event has
the exact same `time` and a lowercased similarity ratio of at least 0.75. -/
def isDupAgainst (kept : List PyEvent) (ev : PyEvent) : Bool :=
  kept.any fun k =>
    decide (ev.time = k.time) && simGE75 (lowerStr ev.event) (lowerStr k.event)

/-- The filtering loop of tl.py lines 278-291, with `kept` the list
`filtered` accumulated so far. -/
def dedupAux (kept : List PyEvent) : List PyEvent → List PyEvent
  | [] => []
  | ev :: rest =>
    if isDupAgainst kept ev then dedupAux kept rest
    else ev :: dedupAux (kept ++ [ev]) rest

/-- The deduplicator: `filtered` as returned at tl.py line 291. -/
def dedupEvents (events : List PyEvent) : List PyEvent := dedupAux [] events

/-- Parse a global citation token `[(\d+,\d+)]` at the head of the input,
returning the matched text (`re.search(r"\[\((\d+),(\d+)\)\]", ...)`,
group 0). -/
def parseGTok (s : Str) : Option Str :=
  match s with
  | '[' :: '(' :: rest =>
    match parseDigits rest with
    | ([], _) => none
    | (d1 :: ds1, r1) =>
      match r1 with
      | ',' :: r2 =>
        match parseDigits r2 with
        | ([], _) => none
        | (d2 :: ds2, r3) =>
          match r3 with
          | ')' :: ']' :: _ => some ('[' :: '(' :: (d1 :: ds1) ++ ',' :: (d2 :: ds2) ++ [')', ']'])
          | _ => none
      | _ => none
  | _ => none

/-- `re.search(r"\[\((\d+),(\d+)\)\]", s)`: the first (leftmost) match. -/
def searchGTok : Str → Option Str
  | [] => none
  | c :: rest =>
    match parseGTok (c :: rest) with
    | some m => some m
    | none => searchGTok rest

/-- tl.py lines 293-296: when the event text contains a global citation
token, store `match.group(0)[1:-1]` (the token without its outer square
brackets) in `source`. -/
def resolveSource (ev : PyEvent) : PyEvent :=
  match searchGTok ev.event with
  | some m => { ev with source := some ((m.drop 1).dropLast) }
  | none => ev

def resolveSources (events : List PyEvent) : List PyEvent := events.map resolveSource

/-! ### Consolidation: `get_consolidated_chronology` (tl.py lines 245-299) -/

/-- The `for index, (_, doc_answer) in enumerate(zip(doc_names, merged_map_answers))`
loop of tl.py lines 259-268: returns `map_answers_regex` (remapped
answers of documents whose merged text does not contain the sentinel, in
order) together with `no_relevant_count`. -/
def regexLoop : Nat → List (Str × Str) → List Str × Nat
  | _, [] => ([], 0)
  | i, (_, ans) :: rest =>
    let acc := regexLoop (i + 1) rest
    if hasSub sentinel ans then (acc.1, acc.2 + 1)
    else (remapCitations i ans :: acc.1, acc.2)

/-- `get_consolidated_chronology` (tl.py lines 245-299).  The external
calls `consolidated_chronology_to_json_docviewer` (structured extraction;
`none` models an unparseable answer, per spec 4.4) and
`sort_json_chronology` (semantic sort) are not part of this repository
and are taken as oracle parameters. -/
def getConsolidatedChronology (docNames : List Str) (mapAnswers : List (List Str))
    (extractor : Str → Option (List PyEvent)) (sorter : List PyEvent → List PyEvent) :
    Option (List PyEvent) :=
  let merged := mergeTimelineRule mapAnswers
  let loopOut := regexLoop 0 (docNames.zip merged)
  if loopOut.2 = mapAnswers.length then none
  else
    match extractor (joinNl loopOut.1) with
    | none => none
    | some jsonAnswer => some (resolveSources (dedupEvents (sorter jsonAnswer)))

/-! ### `_postprocess_chronology` (tl.py lines 301-326) -/

/-- The character class `[\(\)\d, ]` of the citation-stripping regex. -/
def isCiteChar (c : Char) : Bool :=
  c.isDigit || c = '(' || c = ')' || c = ',' || c = ' '

/-- Match `[\(\)\d, ]+\]` at the head of the input, returning the
remainder after the closing bracket. -/
def parseCiteRun (s : Str) : Option Str :=
  let p := s.span isCiteChar
  match p.1, p.2 with
  | [], _ => none
  | _ :: _, ']' :: r => some r
  | _, _ => none

/-- Scan of `re.sub(r"\[[\(\)\d, ]+\]", "", s)` (tl.py line 325), with
one unit of fuel per character position. -/
def stripF : Nat → Str → Str
  | 0, s => s
  | _ + 1, [] => []
  | f + 1, c :: rest =>
    if c = '[' then
      match parseCiteRun rest with
      | some rest' => stripF f rest'
      | none => '[' :: stripF f rest
    else c :: stripF f rest

/-- `re.sub(r"\[[\(\)\d, ]+\]", "", s)`. -/
def stripCite (s : Str) : Str := stripF s.length s

/-- The per-event mutation of `_postprocess_chronology` with both
docviewer feature toggles off (tl.py lines 304-305 and 323-325):
`source` is overwritten with `event.get("title", "")`, and citation
tokens are stripped from the event text. -/
def postprocessEvent (ev : PyEvent) : PyEvent :=
  { time := ev.time
    event := stripCite ev.event
    title := ev.title
    source := some (ev.title.getD []) }

/-- `_postprocess_chronology` (tl.py lines 301-326, toggles off). -/
def postprocessChronologyEvents : Option (List PyEvent) → Option (List PyEvent)
  | none => none
  | some chronology => some (chronology.map postprocessEvent)

/-! ### `generate_answer` control flow (tl.py lines 98-106) -/

/-- Outcome of `generate_answer`, up to rendering: either the
`UkErrorMsg.EVENT_NOT_FOUND` terminal response (tl.py lines 100-101) or
the truncated chronology that is subsequently rendered (tl.py lines
103-108). -/
inductive TimelineResult where
  | notFound
  | answer (events : List PyEvent) (truncated : Bool)
deriving DecidableEq

/-- tl.py lines 98-106: consolidate, post-process, return the
"no events found" response when nothing survived, otherwise truncate to
`config.EVENT_LIMIT` events, recording whether truncation happened
(`event_has_intercept`). -/
def generateAnswer (docNames : List Str) (mapAnswers : List (List Str))
    (extractor : Str → Option (List PyEvent)) (sorter : List PyEvent → List PyEvent)
    (eventLimit : Nat) : TimelineResult :=
  match postprocessChronologyEvents (getConsolidatedChronology docNames mapAnswers extractor sorter) with
  | none => .notFound
  | some chronology =>
    if chronology.isEmpty then .notFound
    else if eventLimit < chronology.length then .answer (chronology.take eventLimit) true
    else .answer chronology false

/-! ### Answer renderer: `json_to_chronology` (tl.py lines 176-185) -/

/-- Python `event[key]` on an optional dictionary entry: raises
`KeyError` when the key is absent. -/
def pyGetItem (v : Option Str) (key : String) : Except String Str :=
  match v with
  | some s => .ok s
  | none => .error ("KeyError: " ++ key)

/-- `json_to_chronology` (tl.py lines 176-185): for each event append
`f"{event['title']} \n"` and `f"{event['time']}: {event['event']}\n"`,
then strip.  `event['title']` raises `KeyError` when the key is absent
(`time` and `event` are total fields of `PyEvent`, per the extraction
contract). -/
def chronStep (acc : Str) (ev : PyEvent) : Except String Str := do
  let t ← pyGetItem ev.title "title"
  pure (acc ++ t ++ s2l " \n" ++ ev.time ++ s2l ": " ++ ev.event ++ ['\n'])

def jsonToChronology (events : List PyEvent) : Except String Str :=
  (events.foldlM chronStep ([] : Str)).map trimStr

/-! ### Map orchestrator: `llm_predict_batch` and `map_answers`
(tl.py lines 363-410) -/

/-- `llm_predict_batch` (tl.py lines 394-410): one future per prompt in
submission order, futures harvested in submission order, empty answers
(falsy `llm_answer`) silently dropped.  The external `llm_predict` call
is the oracle parameter. -/
def llmPredictBatch (oracle : Str → Str) (prompts : List Str) : List Str :=
  (prompts.map oracle).filter fun a => ! a.isEmpty

/-- The worker-pool size used by `llm_predict_batch`:
`max_workers = max(max_workers, len(prompts))` (tl.py line 402, default
`max_workers = 12`). -/
def llmBatchWorkerPool (maxWorkers : Nat) (prompts : List Str) : Nat :=
  Nat.max maxWorkers prompts.length

/-- tl.py lines 373-378: re-extract the `<summary>`/`<timeline>` sections
when both tags are present (any `IndexError` falls back to the raw
response). -/
def chunkResponse (r : Str) : Str :=
  match pyIdx1 (s2l "<summary>") r with
  | none => r
  | some seg1 =>
    match pyIdx1 (s2l "<timeline>") r with
    | none => r
    | some seg2 =>
      s2l "<summary>\n" ++ trimStr (pyIdx0 (s2l "</summary>") seg1) ++
        s2l "\n</summary>\n<timeline>\n" ++ trimStr (pyIdx0 (s2l "</timeline>") seg2) ++
        s2l "\n</timeline>"

/-- tl.py line 379: `f"<chronology>\n{response}\n</chronology>"`. -/
def wrapChronology (r : Str) : Str :=
  s2l "<chronology>\n" ++ chunkResponse r ++ s2l "\n</chronology>"

/-- The grouping loop of `map_answers` (tl.py lines 369-382): walk the
harvested answers with counter `i`, advancing the document register
`index` once whenever `i > document_scopes[index][1]`, and append the
wrapped answer to `map_answers[index]`.  Out-of-range indexing (which
would raise `IndexError` in Python) is modelled with `getD`/`set`
defaults and is never reached by the inputs considered here. -/
def groupLoop (scopes : List (Nat × Nat)) : Nat → Nat → List Str → List (List Str) →
    List (List Str)
  | _, _, [], acc => acc
  | i, index, ans :: rest, acc =>
    let index' := if (scopes.getD index (0, 0)).2 < i then index + 1 else index
    groupLoop scopes (i + 1) index' rest (acc.set index' (acc.getD index' [] ++ [ans]))

/-- `map_answers` after the batch call (tl.py lines 369-383): harvest the
batch answers, wrap each, and group them by `document_scopes`. -/
def mapAnswersGroup (docCount : Nat) (scopes : List (Nat × Nat)) (oracle : Str → Str)
    (prompts : List Str) : List (List Str) :=
  groupLoop scopes 0 0 ((llmPredictBatch oracle prompts).map wrapChronology)
    (List.replicate docCount [])

/-! ### Spec-side relation and concrete inputs used by the claims -/

/-- The deduplication rule as worded by the spec (4.6): walking the
sorted list in order with the kept events accumulated in `kept`, an event
`e` is dropped iff some earlier kept event `k` has exactly the same
`time` and lowercased similarity ratio at least 0.75; otherwise `e` is
kept. -/
inductive DedupSpecRel : List PyEvent → List PyEvent → List PyEvent → Prop where
  | nil (kept : List PyEvent) : DedupSpecRel kept [] []
  | drop {kept : List PyEvent} {e : PyEvent} {rest out : List PyEvent} :
      (∃ k ∈ kept, e.time = k.time ∧ simGE75 (lowerStr e.event) (lowerStr k.event) = true) →
      DedupSpecRel kept rest out → DedupSpecRel kept (e :: rest) out
  | keep {kept : List PyEvent} {e : PyEvent} {rest out : List PyEvent} :
      (¬ ∃ k ∈ kept, e.time = k.time ∧ simGE75 (lowerStr e.event) (lowerStr k.event) = true) →
      DedupSpecRel (kept ++ [e]) rest out → DedupSpecRel kept (e :: rest) (e :: out)

/-- First event of the spec's deduplication example (spec 8). -/
def exCrash1 : PyEvent :=
  { time := s2l "2020-01-01", event := s2l "A car crash occurred", title := none, source := none }

/-- Second event of the spec's deduplication example: same day, near-
duplicate text. -/
def exCrash2 : PyEvent :=
  { time := s2l "2020-01-01", event := s2l "A car crash happened", title := none, source := none }

/-- Third event of the spec's deduplication example: the next day. -/
def exUnrelated : PyEvent :=
  { time := s2l "2020-01-02", event := s2l "Unrelated event", title := none, source := none }

/-- The event of the spec's end-to-end example, as produced by the
structured extractor: its text carries the global citation token
`[(0,1)]` and no `title` key. -/
def c1Event : PyEvent :=
  { time := s2l "2020-01-01", event := s2l "2020-01-01: Contract signed.[(0,1)]",
    title := none, source := none }

/-- Five distinct extracted events (used against `event_limit = 2`). -/
def ev5 : List PyEvent :=
  [ { time := s2l "1", event := s2l "a", title := none, source := none },
    { time := s2l "2", event := s2l "b", title := none, source := none },
    { time := s2l "3", event := s2l "c", title := none, source := none },
    { time := s2l "4", event := s2l "d", title := none, source := none },
    { time := s2l "5", event := s2l "e", title := none, source := none } ]

/-- `ev5` after `_postprocess_chronology` (sources overwritten with the
absent title, citation tokens stripped from the texts). -/
def chron5 : List PyEvent :=
  [ { time := s2l "1", event := s2l "a", title := none, source := some [] },
    { time := s2l "2", event := s2l "b", title := none, source := some [] },
    { time := s2l "3", event := s2l "c", title := none, source := some [] },
    { time := s2l "4", event := s2l "d", title := none, source := some [] },
    { time := s2l "5", event := s2l "e", title := none, source := some [] } ]

/-- A batch oracle for three chunk prompts: the call for the first chunk
of document 0 returns the empty answer (a failed call), the other two
succeed. -/
def c5Oracle : Str → Str := fun p =>
  if p = s2l "p0" then []
  else if p = s2l "p1" then s2l "doc0 chunk2 events"
  else s2l "doc1 chunk1 events"

/-! ## Theorems -/

/-! ### Lemmas about `parseDigits` and `tryTok` -/

theorem parseDigits_recombine : ∀ s : Str, (parseDigits s).1 ++ (parseDigits s).2 = s
  | [] => rfl
  | c :: cs => by
    simp only [parseDigits]
    by_cases h : c.isDigit
    · simp only [if_pos h, List.cons_append, List.cons.injEq, true_and]
      exact parseDigits_recombine cs
    · simp [if_neg h]

theorem parseDigits_digit : ∀ s : Str, ∀ c ∈ (parseDigits s).1, c.isDigit = true
  | [] => by simp [parseDigits]
  | c :: cs => by
    simp only [parseDigits]
    by_cases h : c.isDigit
    · simp only [if_pos h]
      intro x hx
      rcases List.mem_cons.mp hx with rfl | hx
      · exact h
      · exact parseDigits_digit cs x hx
    · simp [if_neg h]

theorem parseDigits_rest_head : ∀ s : Str, ∀ c r, (parseDigits s).2 = c :: r → c.isDigit = false
  | [] => by simp [parseDigits]
  | x :: cs => by
    simp only [parseDigits]
    by_cases h : x.isDigit
    · simp only [if_pos h]
      exact fun c r hcr => parseDigits_rest_head cs c r hcr
    · simp only [if_neg h]
      intro c r hcr
      cases hcr
      exact Bool.eq_false_iff.mpr h

theorem parseDigits_of_digits : ∀ ds : Str, (∀ c ∈ ds, c.isDigit = true) → ∀ t : Str,
    parseDigits (ds ++ t) = (ds ++ (parseDigits t).1, (parseDigits t).2)
  | [], _ => by simp
  | c :: ds, h => by
    intro t
    have hc : c.isDigit = true := h c (List.mem_cons_self c ds)
    have ih := parseDigits_of_digits ds (fun x hx => h x (List.mem_cons_of_mem c hx)) t
    simp only [List.cons_append, parseDigits, if_pos hc]
    rw [show ds.append t = ds ++ t from rfl, ih]

theorem tryTok_nil : tryTok [] = none := rfl

theorem tryTok_not_caret (c : Char) (h : c ≠ '^') (s : Str) : tryTok (c :: s) = none := by
  simp [tryTok, h]

theorem tryTok_eq_some {s ds r : Str} (h : tryTok s = some (ds, r)) :
    s = '^' :: (ds ++ ']' :: r) ∧ ds ≠ [] ∧ ∀ c ∈ ds, c.isDigit = true := by
  cases s with
  | nil => simp [tryTok] at h
  | cons c cs =>
    by_cases hc : c = '^'
    · subst hc
      have hrec := parseDigits_recombine cs
      have hdig := parseDigits_digit cs
      rcases hpd : parseDigits cs with ⟨pds, pr⟩
      rw [hpd] at hrec hdig
      simp only [tryTok, if_pos rfl, hpd] at h
      cases pds with
      | nil => simp at h
      | cons d dtl =>
        cases pr with
        | nil => simp at h
        | cons x xr =>
          by_cases hx : x = ']'
          · subst hx
            simp only [Option.some.injEq, Prod.mk.injEq] at h
            obtain ⟨rfl, rfl⟩ := h
            exact ⟨by rw [← hrec], by simp, hdig⟩
          · simp [hx] at h
    · rw [tryTok_not_caret c hc cs] at h
      exact absurd h (by simp)

theorem tryTok_mk {ds : Str} (r : Str) (hne : ds ≠ []) (hdig : ∀ c ∈ ds, c.isDigit = true) :
    tryTok ('^' :: (ds ++ ']' :: r)) = some (ds, r) := by
  have hpd : parseDigits (ds ++ ']' :: r) = (ds, ']' :: r) := by
    rw [parseDigits_of_digits ds hdig (']' :: r)]
    simp [parseDigits]
  cases ds with
  | nil => exact absurd rfl hne
  | cons d dtl =>
    have hpd' : parseDigits (d :: (dtl ++ ']' :: r)) = (d :: dtl, ']' :: r) := by
      rw [show d :: (dtl ++ ']' :: r) = (d :: dtl) ++ ']' :: r from rfl]
      exact hpd
    simp [tryTok, hpd']

theorem tryTok_some_len {s ds r : Str} (h : tryTok s = some (ds, r)) : r.length < s.length := by
  obtain ⟨hs, _, _⟩ := tryTok_eq_some h
  rw [hs]
  simp only [List.length_cons, List.length_append]
  omega

theorem tryTok_append_brk {s : Str} (h : tryTok s = none) (t : Str) :
    tryTok (s ++ '[' :: t) = none := by
  cases s with
  | nil => exact tryTok_not_caret '[' (by decide) t
  | cons c cs =>
    by_cases hc : c = '^'
    · subst hc
      rcases hpd : parseDigits cs with ⟨ds, r⟩
      have hrec := parseDigits_recombine cs
      rw [hpd] at hrec
      have hdig := parseDigits_digit cs
      rw [hpd] at hdig
      have hnew : parseDigits (cs ++ '[' :: t) = (ds ++ (parseDigits (r ++ '[' :: t)).1,
          (parseDigits (r ++ '[' :: t)).2) := by
        rw [← hrec, List.append_assoc]
        exact parseDigits_of_digits ds hdig (r ++ '[' :: t)
      cases r with
      | nil =>
        have hpr : parseDigits (([] : Str) ++ '[' :: t) = ([], '[' :: t) := by
          simp [parseDigits]
        rw [hpr] at hnew
        simp only [List.append_nil] at hnew
        cases ds with
        | nil => simp [tryTok, List.cons_append, hnew]
        | cons d dtl => simp [tryTok, List.cons_append, hnew]
      | cons x xr =>
        have hx : x.isDigit = false := parseDigits_rest_head cs x xr (by rw [hpd])
        have hpr : parseDigits ((x :: xr) ++ '[' :: t) = ([], (x :: xr) ++ '[' :: t) := by
          simp [parseDigits, hx]
        rw [hpr] at hnew
        simp only [List.append_nil] at hnew
        cases ds with
        | nil => simp [tryTok, List.cons_append, hnew]
        | cons d dtl =>
          by_cases hxb : x = ']'
          · subst hxb
            rw [show tryTok ('^' :: cs) = some (d :: dtl, xr) by simp [tryTok, hpd]] at h
            exact absurd h (by simp)
          · simp only [List.cons_append] at hnew ⊢
            simp [tryTok, hnew, hxb]
    · rw [List.cons_append]
      exact tryTok_not_caret c hc (cs ++ '[' :: t)

/-! ### Lemmas about the remap scan -/

theorem remapF_nil (d : Nat) : ∀ f : Nat, remapF d f [] = []
  | 0 => rfl
  | _ + 1 => rfl

theorem remapF_irrel (d : Nat) : ∀ f₁ : Nat, ∀ s : Str, ∀ f₂ : Nat,
    s.length ≤ f₁ → s.length ≤ f₂ → remapF d f₁ s = remapF d f₂ s := by
  intro f₁
  induction f₁ with
  | zero =>
    intro s f₂ h₁ _
    rw [List.length_eq_zero.mp (Nat.le_zero.mp h₁)]
    exact (remapF_nil d f₂).symm
  | succ g ih =>
    intro s f₂ h₁ h₂
    cases s with
    | nil => rw [remapF_nil, remapF_nil]
    | cons c rest =>
      cases f₂ with
      | zero => exact absurd h₂ (by simp)
      | succ g₂ =>
        simp only [List.length_cons, Nat.succ_le_succ_iff] at h₁ h₂
        by_cases hc : c = '['
        · subst hc
          rcases htt : tryTok rest with _ | ⟨ds, rest'⟩
          · simp only [remapF, eq_self_iff_true, if_true, htt]
            rw [ih rest g₂ h₁ h₂]
          · have hlen := tryTok_some_len htt
            simp only [remapF, eq_self_iff_true, if_true, htt]
            rw [ih rest' g₂ (le_of_lt (lt_of_lt_of_le hlen h₁)) (le_of_lt (lt_of_lt_of_le hlen h₂))]
        · simp only [remapF, if_neg hc]
          rw [ih rest g₂ h₁ h₂]

theorem remap_cons_ne {c : Char} (d : Nat) (rest : Str) (hc : c ≠ '[') :
    remapCitations d (c :: rest) = c :: remapCitations d rest := by
  unfold remapCitations
  simp only [List.length_cons, remapF, if_neg hc]

theorem remap_cons_brk_none {rest : Str} (d : Nat) (h : tryTok rest = none) :
    remapCitations d ('[' :: rest) = '[' :: remapCitations d rest := by
  unfold remapCitations
  simp only [List.length_cons, remapF, eq_self_iff_true, if_true, h]

theorem remap_cons_brk_some {rest ds rest' : Str} (d : Nat)
    (h : tryTok rest = some (ds, rest')) :
    remapCitations d ('[' :: rest) = gTok d ds ++ remapCitations d rest' := by
  unfold remapCitations
  simp only [List.length_cons, remapF, eq_self_iff_true, if_true, h]
  rw [remapF_irrel d rest.length rest' rest'.length (le_of_lt (tryTok_some_len h)) le_rfl]

theorem remap_noTok (d : Nat) : ∀ s : Str, hasTok s = false → remapCitations d s = s
  | [], _ => rfl
  | c :: rest, h => by
    simp only [hasTok, Bool.or_eq_false_iff, Bool.and_eq_false_iff] at h
    obtain ⟨h1, h2⟩ := h
    by_cases hc : c = '['
    · subst hc
      have htt : tryTok rest = none := by
        rcases h1 with h1 | h1
        · exact absurd h1 (by decide)
        · exact Option.not_isSome_iff_eq_none.mp (by simp [h1])
      rw [remap_cons_brk_none d htt, remap_noTok d rest h2]
    · rw [remap_cons_ne d rest hc, remap_noTok d rest h2]

theorem remap_append_noBrk (d : Nat) : ∀ pre : Str, (∀ c ∈ pre, c ≠ '[') → ∀ t : Str,
    remapCitations d (pre ++ t) = pre ++ remapCitations d t
  | [], _ => fun _ => rfl
  | c :: pr, h => fun t => by
    have hc : c ≠ '[' := h c (List.mem_cons_self c pr)
    rw [List.cons_append, remap_cons_ne d (pr ++ t) hc,
      remap_append_noBrk d pr (fun x hx => h x (List.mem_cons_of_mem c hx)) t, List.cons_append]

theorem hasTok_append_noBrk : ∀ pre : Str, (∀ c ∈ pre, c ≠ '[') → ∀ t : Str,
    hasTok (pre ++ t) = hasTok t
  | [], _ => fun _ => rfl
  | c :: pr, h => fun t => by
    have hc : c ≠ '[' := h c (List.mem_cons_self c pr)
    simp only [List.cons_append, hasTok, hc, decide_False, Bool.false_and, Bool.false_or]
    exact hasTok_append_noBrk pr (fun x hx => h x (List.mem_cons_of_mem c hx)) t

theorem digitChar_isDigit : ∀ m : Nat, m < 10 → (Nat.digitChar m).isDigit = true := by decide

theorem natDigitsAux_digit : ∀ f n : Nat, ∀ c ∈ natDigitsAux f n, c.isDigit = true := by
  intro f
  induction f with
  | zero => intro n c hc; simp [natDigitsAux] at hc
  | succ g ih =>
    intro n c hc
    simp only [natDigitsAux] at hc
    by_cases h : n < 10
    · rw [if_pos h] at hc
      rcases List.mem_singleton.mp hc with rfl
      exact digitChar_isDigit n h
    · rw [if_neg h] at hc
      rcases List.mem_append.mp hc with hc | hc
      · exact ih (n / 10) c hc
      · rcases List.mem_singleton.mp hc with rfl
        exact digitChar_isDigit _ (Nat.mod_lt n (by omega))


theorem natDigits_digit (n : Nat) : ∀ c ∈ natDigits n, c.isDigit = true :=
  natDigitsAux_digit (n + 1) n

theorem isDigit_ne_brk {c : Char} (h : c.isDigit = true) : c ≠ '[' := by
  intro he
  subst he
  exact absurd h (by decide)

/-- The characters of a global token after its opening `[` contain no `[`. -/
theorem gTok_tail_noBrk (d : Nat) {ds : Str} (hds : ∀ c ∈ ds, c.isDigit = true) :
    ∀ c ∈ ('(' :: natDigits d ++ ',' :: ds ++ [')', ']'] : Str), c ≠ '[' := by
  intro c hc
  rcases List.mem_cons.mp hc with rfl | hc
  · decide
  rcases List.mem_append.mp hc with hc | hc
  · rcases List.mem_append.mp hc with hc | hc
    · exact isDigit_ne_brk (natDigits_digit d c hc)
    · rcases List.mem_cons.mp hc with rfl | hc
      · decide
      · exact isDigit_ne_brk (hds c hc)
  · rcases List.mem_cons.mp hc with rfl | hc
    · decide
    · rcases List.mem_singleton.mp hc with rfl
      decide

theorem gTok_cons (d : Nat) (ds : Str) :
    gTok d ds = '[' :: ('(' :: natDigits d ++ ',' :: ds ++ [')', ']']) := rfl

/-- The first character of the scan output is never changed into `^` and
a leading non-`[` character is preserved. -/
theorem remap_head_shape (d : Nat) (c : Char) (rest : Str) :
    (c ≠ '[' ∧ remapCitations d (c :: rest) = c :: remapCitations d rest)
    ∨ (c = '[' ∧ ∃ t : Str, remapCitations d (c :: rest) = '[' :: t) := by
  by_cases hc : c = '['
  · subst hc
    refine Or.inr ⟨rfl, ?_⟩
    rcases htt : tryTok rest with _ | ⟨ds, rest'⟩
    · exact ⟨remapCitations d rest, remap_cons_brk_none d htt⟩
    · refine ⟨'(' :: natDigits d ++ ',' :: ds ++ [')', ']'] ++ remapCitations d rest', ?_⟩
      rw [remap_cons_brk_some d htt, gTok_cons]
      simp
  · exact Or.inl ⟨hc, remap_cons_ne d rest hc⟩

/-- If no token matches at a position, none matches there after the scan
rewrites the remainder. -/
theorem tryTok_remap_none (d : Nat) {r : Str} (h : tryTok r = none) :
    tryTok (remapCitations d r) = none := by
  cases r with
  | nil => exact tryTok_nil
  | cons c cs =>
    by_cases hc : c = '^'
    · subst hc
      rw [remap_cons_ne d cs (by decide)]
      have hrec := parseDigits_recombine cs
      have hdigs := parseDigits_digit cs
      rcases hpd : parseDigits cs with ⟨ds, r0⟩
      rw [hpd] at hrec hdigs
      have hsplit : remapCitations d cs = ds ++ remapCitations d r0 := by
        rw [← hrec, remap_append_noBrk d ds (fun x hx => isDigit_ne_brk (hdigs x hx)) r0]
      have hpd2 : parseDigits (remapCitations d cs) =
          (ds ++ (parseDigits (remapCitations d r0)).1, (parseDigits (remapCitations d r0)).2) := by
        rw [hsplit]
        exact parseDigits_of_digits ds hdigs (remapCitations d r0)
      cases r0 with
      | nil =>
        have hre : remapCitations d ([] : Str) = [] := rfl
        rw [hre] at hpd2
        simp only [parseDigits, List.append_nil] at hpd2
        cases ds with
        | nil => simp [tryTok, hpd2]
        | cons d0 dtl => simp [tryTok, hpd2]
      | cons x xr =>
        have hx : x.isDigit = false := parseDigits_rest_head cs x xr (by rw [hpd])
        rcases remap_head_shape d x xr with ⟨hxb, hre⟩ | ⟨hxb, t, hre⟩
        · rw [hre] at hpd2
          have hpdx : parseDigits (x :: remapCitations d xr) = ([], x :: remapCitations d xr) := by
            simp [parseDigits, hx]
          rw [hpdx] at hpd2
          simp only [List.append_nil] at hpd2
          cases ds with
          | nil => simp [tryTok, hpd2]
          | cons d0 dtl =>
            have hxne : x ≠ ']' := by
              intro hxe
              subst hxe
              rw [show tryTok ('^' :: cs) = some (d0 :: dtl, xr) by simp [tryTok, hpd]] at h
              exact absurd h (by simp)
            simp [tryTok, hpd2, hxne]
        · rw [hre] at hpd2
          have hpdx : parseDigits ('[' :: t) = ([], '[' :: t) := by
            simp [parseDigits]
          rw [hpdx] at hpd2
          simp only [List.append_nil] at hpd2
          cases ds with
          | nil => simp [tryTok, hpd2]
          | cons d0 dtl => simp [tryTok, hpd2]
    · rcases remap_head_shape d c cs with ⟨_, hre⟩ | ⟨hcb, t, hre⟩
      · rw [hre]
        exact tryTok_not_caret c hc _
      · rw [hre]
        exact tryTok_not_caret '[' (by decide) t

theorem hasTok_gTok_append (d : Nat) {ds : Str} (hds : ∀ c ∈ ds, c.isDigit = true) (t : Str) :
    hasTok (gTok d ds ++ t) = hasTok t := by
  rw [gTok_cons, List.cons_append, hasTok]
  have htail := hasTok_append_noBrk ('(' :: natDigits d ++ ',' :: ds ++ [')', ']'])
    (gTok_tail_noBrk d hds) t
  rw [htail]
  have hcar : tryTok (('(' :: natDigits d ++ ',' :: ds ++ [')', ']']) ++ t) = none := by
    rw [List.cons_append]
    exact tryTok_not_caret '(' (by decide) _
  rw [hcar]
  simp

/-- The scan output never contains a complete local citation token. -/
theorem hasTok_remap (d : Nat) : ∀ n : Nat, ∀ s : Str, s.length ≤ n →
    hasTok (remapCitations d s) = false := by
  intro n
  induction n with
  | zero =>
    intro s h
    rw [List.length_eq_zero.mp (Nat.le_zero.mp h)]
    rfl
  | succ g ih =>
    intro s h
    cases s with
    | nil => rfl
    | cons c rest =>
      simp only [List.length_cons, Nat.succ_le_succ_iff] at h
      by_cases hc : c = '['
      · subst hc
        rcases htt : tryTok rest with _ | ⟨ds, rest'⟩
        · rw [remap_cons_brk_none d htt, hasTok, tryTok_remap_none d htt, ih rest h]
          simp
        · obtain ⟨_, _, hdig⟩ := tryTok_eq_some htt
          rw [remap_cons_brk_some d htt, hasTok_gTok_append d hdig]
          exact ih rest' (le_of_lt (lt_of_lt_of_le (tryTok_some_len htt) h))
      · rw [remap_cons_ne d rest hc, hasTok]
        rw [ih rest h]
        simp [hc]

/-- The scan rewrites a token placed after a token-free prefix, leaving
the prefix unchanged and continuing after the token. -/
theorem remap_tok_split (d : Nat) {ds : Str} (hne : ds ≠ [])
    (hdig : ∀ c ∈ ds, c.isDigit = true) :
    ∀ pre : Str, hasTok pre = false → ∀ suf : Str,
      remapCitations d (pre ++ '[' :: '^' :: (ds ++ ']' :: suf)) =
        pre ++ gTok d ds ++ remapCitations d suf
  | [], _ => fun suf => by
    rw [List.nil_append, remap_cons_brk_some d (tryTok_mk suf hne hdig), List.nil_append]
  | c :: pr, h => fun suf => by
    simp only [hasTok, Bool.or_eq_false_iff, Bool.and_eq_false_iff] at h
    obtain ⟨h1, h2⟩ := h
    by_cases hc : c = '['
    · subst hc
      have htt : tryTok pr = none := by
        rcases h1 with h1 | h1
        · exact absurd h1 (by decide)
        · exact Option.not_isSome_iff_eq_none.mp (by simp [h1])
      have htt2 : tryTok (pr ++ '[' :: ('^' :: (ds ++ ']' :: suf))) = none :=
        tryTok_append_brk htt ('^' :: (ds ++ ']' :: suf))
      rw [List.cons_append, remap_cons_brk_none d htt2,
        remap_tok_split d hne hdig pr h2 suf]
      simp
    · rw [List.cons_append, remap_cons_ne d _ hc, remap_tok_split d hne hdig pr h2 suf]
      simp

/-- C7: the citation remapper rewrites every local token `[^k]` after a
token-free prefix into the global token `[(d,k)]` and continues after it,
and leaves any text without a complete local token — in particular
malformed tokens such as `[^a]` or an unmatched `[^12` — entirely
unchanged; being a total function, it never raises. -/
theorem claim_c7_remap_rewrites (d : Nat) :
    (∀ pre ds suf : Str, hasTok pre = false → ds ≠ [] → (∀ c ∈ ds, c.isDigit = true) →
      remapCitations d (pre ++ '[' :: '^' :: (ds ++ ']' :: suf)) =
        pre ++ gTok d ds ++ remapCitations d suf)
    ∧ (∀ s : Str, hasTok s = false → remapCitations d s = s) :=
  ⟨fun pre _ suf hpre hne hdig => remap_tok_split d hne hdig pre hpre suf,
   fun s hs => remap_noTok d s hs⟩

/-- Witness for C7 at a concrete input: in `"See [^1] and [^a] and [^12"`
the well-formed token is rewritten for document 0 while the malformed
`[^a]` and the unmatched `[^12` are untouched. -/
theorem claim_c7_remap_rewrites_witness :
    remapCitations 0 (s2l "See [^1] and [^a] and [^12") =
      s2l "See [(0,1)] and [^a] and [^12" := by
  have h := (claim_c7_remap_rewrites 0).1 (s2l "See ") ['1'] (s2l " and [^a] and [^12")
    (by decide) (by decide) (by decide)
  have e : s2l "See [^1] and [^a] and [^12" =
      s2l "See " ++ '[' :: '^' :: (['1'] ++ ']' :: s2l " and [^a] and [^12") := by decide
  rw [e, h]
  decide

/-- C8: the citation remap is idempotent — remapping its own output is
the identity — and an already-global token such as `[(0,1)]` is a no-op. -/
theorem claim_c8_remap_idempotent :
    (∀ (d : Nat) (s : Str), remapCitations d (remapCitations d s) = remapCitations d s)
    ∧ remapCitations 0 (s2l "[(0,1)]") = s2l "[(0,1)]" := by
  constructor
  · intro d s
    exact remap_noTok d (remapCitations d s) (hasTok_remap d s.length s le_rfl)
  · decide

/-! ### Deduplicator (C2) -/

theorem isDupAgainst_iff (kept : List PyEvent) (ev : PyEvent) :
    isDupAgainst kept ev = true ↔
      ∃ k ∈ kept, ev.time = k.time ∧ simGE75 (lowerStr ev.event) (lowerStr k.event) = true := by
  simp [isDupAgainst, List.any_eq_true, Bool.and_eq_true, decide_eq_true_eq]

theorem dedupAux_sublist : ∀ (events kept : List PyEvent), (dedupAux kept events).Sublist events
  | [], _ => List.Sublist.refl []
  | ev :: rest, kept => by
    simp only [dedupAux]
    by_cases h : isDupAgainst kept ev = true
    · rw [if_pos h]
      exact (dedupAux_sublist rest kept).cons ev
    · rw [if_neg h]
      exact (dedupAux_sublist rest (kept ++ [ev])).cons₂ ev

theorem dedupAux_specRel : ∀ (events kept : List PyEvent),
    DedupSpecRel kept events (dedupAux kept events)
  | [], kept => .nil kept
  | ev :: rest, kept => by
    simp only [dedupAux]
    by_cases h : isDupAgainst kept ev = true
    · rw [if_pos h]
      exact .drop ((isDupAgainst_iff kept ev).mp h) (dedupAux_specRel rest kept)
    · rw [if_neg h]
      exact .keep (fun hex => h ((isDupAgainst_iff kept ev).mpr hex))
        (dedupAux_specRel rest (kept ++ [ev]))

/-- C2 (amended): the deduplicator returns a sublist of its input in
first-seen order and satisfies the spec's removal rule — an event is
dropped iff some earlier kept event has the exact same time string and a
lowercased similarity ratio of at least 0.75.  For the spec's three-event
example, however, the two car-crash texts have ratio 0.7 < 0.75, so all
three events are kept (the first one verbatim). -/
theorem claim_c2_dedup :
    (∀ events : List PyEvent,
      (dedupEvents events).Sublist events ∧ DedupSpecRel [] events (dedupEvents events))
    ∧ dedupEvents [exCrash1, exCrash2, exUnrelated] = [exCrash1, exCrash2, exUnrelated] :=
  ⟨fun events => ⟨dedupAux_sublist events [], dedupAux_specRel events []⟩, by decide⟩

/-- Counterexample to C2 as stated: on the spec's three-event example the
deduplicator does not return two events — the similarity of the two
car-crash sentences is 14 matching characters out of 40, ratio 0.7,
below the 0.75 threshold — so nothing is merged. -/
theorem claim_c2_dedup_counterexample :
    (dedupEvents [exCrash1, exCrash2, exUnrelated]).length ≠ 2 ∧
      matchTotal (lowerStr exCrash2.event) (lowerStr exCrash1.event) = 14 := by
  constructor
  · decide
  · decide

/-! ### Per-document merger (C3) -/

theorem splitFirst_isSome_eq_hasSub {sep : Str} (hsep : sep ≠ []) :
    ∀ s : Str, (splitFirst sep s).isSome = hasSub sep s
  | [] => by
    cases sep with
    | nil => exact absurd rfl hsep
    | cons x xs => simp [splitFirst, hasSub, List.isEmpty]
  | c :: rest => by
    simp only [splitFirst, hasSub]
    by_cases hp : sep.isPrefixOf (c :: rest)
    · simp [hp]
    · simp only [hp, Bool.false_or, if_neg (by simp [hp] : ¬ (sep.isPrefixOf (c :: rest) = true))]
      rw [← splitFirst_isSome_eq_hasSub hsep rest]
      rcases hsf : splitFirst sep rest with _ | ⟨pre, post⟩ <;> simp [hsf]

theorem extractTimeline_isSome (c : Str) :
    (extractTimeline c).isSome = hasSub (s2l "<timeline>") c := by
  rw [extractTimeline, pyIdx1, ← splitFirst_isSome_eq_hasSub (by decide) c]
  rcases hsf : splitFirst (s2l "<timeline>") c with _ | ⟨pre, post⟩ <;> simp [hsf]

theorem mapOpt_none_of_mem {α β : Type} (f : α → Option β) :
    ∀ l : List α, ∀ c ∈ l, f c = none → mapOpt f l = none := by
  intro l
  induction l with
  | nil => intro c hc; exact absurd hc (List.not_mem_nil c)
  | cons a as ih =>
    intro c hc hfc
    rcases List.mem_cons.mp hc with rfl | hc
    · simp [mapOpt, hfc]
    · rcases hfa : f a with _ | b
      · simp [mapOpt, hfa]
      · simp [mapOpt, hfa, ih c hc hfc]

theorem mapOpt_some_of_all {α β : Type} [Inhabited β] (f : α → Option β) :
    ∀ l : List α, (∀ c ∈ l, (f c).isSome = true) →
      mapOpt f l = some (l.map fun c => (f c).getD default) := by
  intro l
  induction l with
  | nil => intro _; rfl
  | cons a as ih =>
    intro h
    rcases hfa : f a with _ | b
    · have := h a (List.mem_cons_self a as)
      rw [hfa] at this
      exact absurd this (by simp)
    · simp [mapOpt, hfa, ih fun c hc => h c (List.mem_cons_of_mem a hc)]

instance : Inhabited Str := ⟨[]⟩

/-- C3 (amended): the merger applies its per-document rule independently
to every document; a fragment *containing* the sentinel substring is
dropped; if any surviving fragment lacks a `<timeline>` tag the whole
document's merged text collapses to the sentinel (with a trailing
period); otherwise the extracted timeline sections of the survivors are
joined with newlines and post-processed, the sentinel standing in when
nothing remains. -/
theorem claim_c3_merge :
    (∀ answers : List (List Str), mergeTimelineRule answers = answers.map mergeOneDoc)
    ∧ (∀ (chunks : List Str) (c : Str), hasSub sentinel c = true →
        mergeOneDoc (c :: chunks) = mergeOneDoc chunks)
    ∧ (∀ (chunks : List Str) (c : Str), c ∈ chunks.filter (fun x => ! hasSub sentinel x) →
        hasSub (s2l "<timeline>") c = false → mergeOneDoc chunks = sentinelDot)
    ∧ (∀ chunks : List Str,
        (∀ c ∈ chunks.filter (fun x => ! hasSub sentinel x), hasSub (s2l "<timeline>") c = true) →
        mergeOneDoc chunks =
          (let content := postprocessChronologyText (joinNl
            ((chunks.filter fun x => ! hasSub sentinel x).map
              fun c => (extractTimeline c).getD default))
           if content.isEmpty then sentinelDot else content)) := by
  refine ⟨fun _ => rfl, ?_, ?_, ?_⟩
  · intro chunks c h
    simp [mergeOneDoc, List.filter_cons, h]
  · intro chunks c hc htl
    have hnone : extractTimeline c = none := by
      have := extractTimeline_isSome c
      rw [htl] at this
      exact Option.not_isSome_iff_eq_none.mp (by simp [this])
    simp only [mergeOneDoc]
    rw [mapOpt_none_of_mem extractTimeline _ c hc hnone]
  · intro chunks h
    simp only [mergeOneDoc]
    rw [mapOpt_some_of_all extractTimeline _ (fun c hc => by rw [extractTimeline_isSome]; exact h c hc)]

/-- Counterexample to C3 as stated: a fragment without `<timeline>` tags
is not used "as-is" — the document collapses to the sentinel — and a
fragment merely containing the sentinel text (without being equal to it)
is dropped even though it carries a timeline section. -/
theorem claim_c3_merge_counterexample :
    mergeTimelineRule [[s2l "<chronology>\nJan 1: event.\n</chronology>"]] = [sentinelDot]
    ∧ s2l "<chronology>\nJan 1: event.\n</chronology>" ≠ sentinelDot
    ∧ mergeTimelineRule
        [[s2l "<timeline>Jan 1: event.</timeline> No relevant information found in part 2"]] =
        [sentinelDot] := by
  refine ⟨by decide, by decide, by decide⟩

/-- Witness for C3 (amended) at a concrete input: one surviving tagged
fragment and one sentinel fragment merge to the extracted timeline text. -/
theorem claim_c3_merge_witness :
    mergeOneDoc [s2l "<chronology>\n<timeline>\nJan 1: x\n</timeline>\n</chronology>",
        s2l "No relevant information found."] = s2l "Jan 1: x" := by
  have h := claim_c3_merge.2.2.2
    [s2l "<chronology>\n<timeline>\nJan 1: x\n</timeline>\n</chronology>",
     s2l "No relevant information found."] (by decide)
  rw [h]
  decide

/-! ### Terminal no-events path (C4) -/

theorem regexLoop_count_all :
    ∀ (ms : List (Str × Str)), (∀ p ∈ ms, hasSub sentinel p.2 = true) →
      ∀ i : Nat, (regexLoop i ms).2 = ms.length := by
  intro ms
  induction ms with
  | nil => intro _ i; rfl
  | cons p rest ih =>
    intro h i
    obtain ⟨n, a⟩ := p
    have ha : hasSub sentinel a = true := h (n, a) (List.mem_cons_self _ _)
    simp only [regexLoop, ha, eq_self_iff_true, if_true, List.length_cons]
    rw [ih (fun q hq => h q (List.mem_cons_of_mem _ hq)) (i + 1)]

/-- C4: when every document's merged answer is the sentinel, the
consolidation step yields no chronology (`None`) and `generate_answer`
returns the `EVENT_NOT_FOUND` terminal response — a value, not an
exception (the model is a total function). -/
theorem claim_c4_no_events (docNames : List Str) (mapAnswers : List (List Str))
    (extractor : Str → Option (List PyEvent)) (sorter : List PyEvent → List PyEvent)
    (eventLimit : Nat)
    (hlen : docNames.length = mapAnswers.length)
    (hall : ∀ ans ∈ mergeTimelineRule mapAnswers, ans = sentinelDot) :
    getConsolidatedChronology docNames mapAnswers extractor sorter = none
    ∧ generateAnswer docNames mapAnswers extractor sorter eventLimit = .notFound := by
  have hml : (mergeTimelineRule mapAnswers).length = mapAnswers.length :=
    List.length_map mapAnswers mergeOneDoc
  have hcount : (regexLoop 0 (docNames.zip (mergeTimelineRule mapAnswers))).2 =
      mapAnswers.length := by
    rw [regexLoop_count_all _ ?_ 0]
    · rw [List.length_zip, hml, hlen, Nat.min_self]
    · intro p hp
      have hmem := (List.of_mem_zip hp).2
      rw [hall p.2 hmem]
      decide
  have hnone : getConsolidatedChronology docNames mapAnswers extractor sorter = none := by
    simp only [getConsolidatedChronology, hcount, eq_self_iff_true, if_true]
  exact ⟨hnone, by simp only [generateAnswer, hnone, postprocessChronologyEvents]⟩

/-- Witness for C4: two documents, one with no chunk answers and one with
a sentinel-only answer, produce the terminal "no events found" response. -/
theorem claim_c4_no_events_witness :
    generateAnswer [s2l "a", s2l "b"] [[], [s2l "No relevant information found."]]
      (fun _ => none) id 2 = .notFound :=
  (claim_c4_no_events [s2l "a", s2l "b"] [[], [s2l "No relevant information found."]]
    (fun _ => none) id 2 (by decide) (by decide)).2

/-! ### Truncation (C9) -/

/-- C9: whenever the post-processed chronology is a non-empty list
`chronology`, `generate_answer` keeps exactly the first `event_limit`
events (in order) and reports truncation iff the list was longer than
the limit. -/
theorem claim_c9_truncation (docNames : List Str) (mapAnswers : List (List Str))
    (extractor : Str → Option (List PyEvent)) (sorter : List PyEvent → List PyEvent)
    (eventLimit : Nat) (chronology : List PyEvent)
    (h : postprocessChronologyEvents
        (getConsolidatedChronology docNames mapAnswers extractor sorter) = some chronology)
    (hne : chronology ≠ []) :
    (eventLimit < chronology.length →
      generateAnswer docNames mapAnswers extractor sorter eventLimit =
        .answer (chronology.take eventLimit) true)
    ∧ (chronology.length ≤ eventLimit →
      generateAnswer docNames mapAnswers extractor sorter eventLimit =
        .answer chronology false) := by
  have hemp : chronology.isEmpty = false := by
    cases chronology with
    | nil => exact absurd rfl hne
    | cons a as => rfl
  constructor
  · intro hlt
    simp [generateAnswer, h, hemp, hlt]
  · intro hle
    simp [generateAnswer, h, hemp, Nat.not_lt.mpr hle]

/-- Witness for C9: one document whose single chunk yields a timeline,
a stubbed extractor returning five events with distinct dates, and
`event_limit = 2`: the pipeline returns the first two events and the
truncated flag. -/
theorem claim_c9_truncation_witness :
    generateAnswer [s2l "d"] [[s2l "<timeline>x</timeline>"]] (fun _ => some ev5) id 2 =
      .answer (chron5.take 2) true :=
  (claim_c9_truncation [s2l "d"] [[s2l "<timeline>x</timeline>"]] (fun _ => some ev5) id 2
    chron5 (by decide) (by decide)).1 (by decide)

/-! ### Renderer totality (C10) -/

theorem foldlM_chronStep_error :
    ∀ (events : List PyEvent) (acc : Str) (e : PyEvent), e ∈ events → e.title = none →
      events.foldlM chronStep acc = Except.error "KeyError: title" := by
  intro events
  induction events with
  | nil => intro acc e he; exact absurd he (List.not_mem_nil e)
  | cons ev rest ih =>
    intro acc e he ht
    rcases hv : ev.title with _ | t
    · have hstep : chronStep acc ev = Except.error "KeyError: title" := by
        simp [chronStep, pyGetItem, hv]
      rw [List.foldlM_cons, hstep]
      rfl
    · have hstep : chronStep acc ev =
          Except.ok (acc ++ t ++ s2l " \n" ++ ev.time ++ s2l ": " ++ ev.event ++ ['\n']) := by
        simp [chronStep, pyGetItem, hv]
      rcases List.mem_cons.mp he with rfl | hmem
      · rw [hv] at ht
        exact absurd ht (by simp)
      · rw [List.foldlM_cons, hstep]
        exact ih _ e hmem ht

theorem foldlM_chronStep_ok :
    ∀ (events : List PyEvent) (acc : Str), (∀ e ∈ events, e.title ≠ none) →
      ∃ s, events.foldlM chronStep acc = Except.ok s := by
  intro events
  induction events with
  | nil => intro acc _; exact ⟨acc, rfl⟩
  | cons ev rest ih =>
    intro acc h
    rcases hv : ev.title with _ | t
    · exact absurd hv (h ev (List.mem_cons_self ev rest))
    · have hstep : chronStep acc ev =
          Except.ok (acc ++ t ++ s2l " \n" ++ ev.time ++ s2l ": " ++ ev.event ++ ['\n']) := by
        simp [chronStep, pyGetItem, hv]
      obtain ⟨s, hs⟩ := ih (acc ++ t ++ s2l " \n" ++ ev.time ++ s2l ": " ++ ev.event ++ ['\n'])
        (fun e he => h e (List.mem_cons_of_mem ev he))
      exact ⟨s, by rw [List.foldlM_cons, hstep]; exact hs⟩

/-- C10: the answer renderer is total only when every event carries a
`title` key — for an event list containing any event without `title`
(the shape of a `ChronologyEvent`, which has only `time`, `event` and
`source`), serialization raises `KeyError: 'title'` instead of producing
text; with all titles present it produces text. -/
theorem claim_c10_renderer_keyerror (events : List PyEvent) :
    (∀ e ∈ events, e.title = none → jsonToChronology events = .error "KeyError: title")
    ∧ ((∀ e ∈ events, e.title ≠ none) → ∃ s, jsonToChronology events = .ok s) := by
  constructor
  · intro e he ht
    unfold jsonToChronology
    rw [foldlM_chronStep_error events [] e he ht]
    rfl
  · intro h
    obtain ⟨s, hs⟩ := foldlM_chronStep_ok events [] h
    exact ⟨trimStr s, by unfold jsonToChronology; rw [hs]; rfl⟩

/-- Witness for C10: a single `ChronologyEvent`-shaped dictionary (only
`time`, `event`, `source`) makes the renderer raise `KeyError: 'title'`. -/
theorem claim_c10_renderer_keyerror_witness :
    jsonToChronology
      [{ time := s2l "2020-01-01", event := s2l "x", title := none, source := some [] }] =
      .error "KeyError: title" :=
  (claim_c10_renderer_keyerror _).1
    { time := s2l "2020-01-01", event := s2l "x", title := none, source := some [] }
    (List.mem_singleton.mpr rfl) rfl

/-! ### The `source` overwrite (C1), the batch misgrouping (C5) and the
worker-pool sizing (C6) -/

/-- C1, evaluated at the spec's end-to-end event: the consolidation step
(tl.py lines 293-296) does extract the citation token into `source`
(giving `(0,1)`), but `_postprocess_chronology` (tl.py lines 304-305)
then unconditionally overwrites `source` with `event.get("title", "")`,
so the final pipeline output carries the empty string — not `(0,1)` —
while the citation token is stripped from the rendered text. -/
theorem claim_c1_source_overwritten :
    (resolveSources [c1Event]).map PyEvent.source = [some (s2l "(0,1)")]
    ∧ postprocessChronologyEvents (some (resolveSources [c1Event])) =
        some [{ time := s2l "2020-01-01", event := s2l "2020-01-01: Contract signed.",
                title := none, source := some [] }]
    ∧ some (s2l "(0,1)") ≠ (some ([] : Str)) := by
  refine ⟨by decide, by decide, by decide⟩

/-- C5, evaluated at a failing batch: three prompts, document scopes
`[(0,1), (2,2)]` (chunks 0-1 belong to document 0, chunk 2 to document
1), and the call for chunk 0 returning empty.  `llm_predict_batch` drops
the empty answer, so `map_answers` walks the two surviving answers with
shifted indices: document 0 receives the answer that originated from
document 1's chunk, and document 1 receives nothing.  The first conjunct
records that the surviving answers themselves are in submission order. -/
theorem claim_c5_misgrouping :
    llmPredictBatch c5Oracle [s2l "p0", s2l "p1", s2l "p2"] =
      [s2l "doc0 chunk2 events", s2l "doc1 chunk1 events"]
    ∧ mapAnswersGroup 2 [(0, 1), (2, 2)] c5Oracle [s2l "p0", s2l "p1", s2l "p2"] =
        [[wrapChronology (s2l "doc0 chunk2 events"), wrapChronology (s2l "doc1 chunk1 events")],
         []] := by
  refine ⟨by decide, by decide⟩

/-- C6, evaluated at a 13-prompt batch: `llm_predict_batch` sizes its
pool as `max(max_workers, len(prompts))` (tl.py line 402), so with the
default `max_workers = 12` and 13 prompts the pool grows to 13 — the
pool size is not a fixed constant independent of the prompt count. -/
theorem claim_c6_worker_pool :
    llmBatchWorkerPool 12 (List.replicate 13 (s2l "p")) = 13
    ∧ llmBatchWorkerPool 12 (List.replicate 13 (s2l "p")) ≠ 12 := by
  refine ⟨by decide, by decide⟩
